import Mathlib

/-!
Verification of `scrape_scholar.py`, a Google Scholar profile scraper.

The development is a shallow embedding of the script: Python dictionaries
become association lists in insertion order, the external `scholarly`
library calls become oracle parameters collected in an `Env` structure,
and the clock, the file system and write failures are likewise explicit
parameters.  Machine arithmetic plays no role in the script, so numbers
are `Int` / `Nat`; the single floating-point value (the checkpoint
percentage) is modelled as a rational.
-/

namespace ScrapeScholar

/-- JSON-like values, modelling the Python data the scraper manipulates.
Dictionaries are association lists in insertion order (keys unique by
construction), mirroring CPython dict semantics.  The one non-integer
number produced by the script (the checkpoint percentage) is modelled as
a rational. -/
inductive JVal where
  | null
  | str (s : String)
  | int (n : Int)
  | num (q : ℚ)
  | bool (b : Bool)
  | arr (xs : List JVal)
  | obj (fs : List (String × JVal))

/-- A document: a Python dict in insertion order. -/
abbrev Doc := List (String × JVal)

/-- Model of `d[k]` / `d.get(k)`: first binding of `k`, if any. -/
def dget : Doc → String → Option JVal
  | [], _ => none
  | (k, v) :: rest, key => if k = key then some v else dget rest key

/-- Model of `d.get(k, default)`. -/
def dgetD (d : Doc) (key : String) (dflt : JVal) : JVal :=
  (dget d key).getD dflt

/-- Model of `d[k] = v`: replace the binding in place if the key exists
(keeping its position, as CPython does), otherwise append it at the end. -/
def dset : Doc → String → JVal → Doc
  | [], key, v => [(key, v)]
  | (k, w) :: rest, key, v =>
    if k = key then (k, v) :: rest else (k, w) :: dset rest key v

/-- Model of `del d[k]`. -/
def ddel (d : Doc) (key : String) : Doc :=
  d.filter (fun kv => kv.1 ≠ key)

/-- Model of a dict-splat literal such as `{**d, 'a': x, 'b': y}`:
the extra bindings are assigned left to right on top of a copy of `d`. -/
def dmerge (d : Doc) (kvs : List (String × JVal)) : Doc :=
  kvs.foldl (fun acc kv => dset acc kv.1 kv.2) d

/-- Model of `list(d.keys())`. -/
def dkeys (d : Doc) : List String := d.map Prod.fst

/-- Python truthiness for the values the script tests with `if x:`. -/
def truthy : JVal → Bool
  | .null => false
  | .str s => !s.isEmpty
  | .int n => n != 0
  | .num q => q != 0
  | .bool b => b
  | .arr xs => !xs.isEmpty
  | .obj fs => !fs.isEmpty

theorem dget_dset_self (d : Doc) (k : String) (v : JVal) :
    dget (dset d k v) k = some v := by
  induction d with
  | nil => simp [dset, dget]
  | cons kv rest ih =>
    obtain ⟨k', w⟩ := kv
    by_cases h : k' = k <;> simp [dset, dget, h, ih]

theorem dget_dset_ne (d : Doc) (k k' : String) (v : JVal) (h : k' ≠ k) :
    dget (dset d k v) k' = dget d k' := by
  have hne : k ≠ k' := fun hh => h hh.symm
  induction d with
  | nil => simp [dset, dget, hne]
  | cons kv rest ih =>
    obtain ⟨k₀, w⟩ := kv
    by_cases h₀ : k₀ = k
    · subst h₀
      simp [dset, dget, hne]
    · simp only [dset, if_neg h₀, dget]
      by_cases h₁ : k₀ = k' <;> simp [h₁, ih]

theorem dkeys_dset_of_mem (d : Doc) (k : String) (v : JVal) (h : k ∈ dkeys d) :
    dkeys (dset d k v) = dkeys d := by
  induction d with
  | nil => simp [dkeys] at h
  | cons kv rest ih =>
    obtain ⟨k₀, w⟩ := kv
    by_cases h₀ : k₀ = k
    · simp [dset, h₀, dkeys]
    · simp only [dkeys, List.map_cons, List.mem_cons] at h
      have hk : k ∈ dkeys rest := by
        rcases h with h | h
        · exact absurd h.symm h₀
        · simpa [dkeys] using h
      simp only [dset, if_neg h₀, dkeys, List.map_cons]
      have hrec := ih hk
      simp only [dkeys] at hrec
      rw [hrec]

/-- Citation count used as the sort key: model of
`x.get('citations', 0)` (in the pipeline this value is always an `int`). -/
def pubCit (p : Doc) : Int :=
  match dget p "citations" with
  | some (.int n) => n
  | _ => 0

/-- Insert a record into a list already sorted by citations descending,
placing it before the first record with a citation count no larger than
its own.  Together with `sortPubsDesc` this is the stable descending
sort performed by `publications.sort(key=..., reverse=True)` and
`sorted(publications, key=..., reverse=True)` (CPython's sort is stable,
so its output is exactly this one). -/
def insortDesc (x : Doc) : List Doc → List Doc
  | [] => [x]
  | q :: rest => if pubCit x < pubCit q then q :: insortDesc x rest else x :: q :: rest

/-- Stable sort of the publication list by citation count, descending. -/
def sortPubsDesc : List Doc → List Doc
  | [] => []
  | x :: xs => insortDesc x (sortPubsDesc xs)

theorem mem_insortDesc {a x : Doc} {l : List Doc} :
    a ∈ insortDesc x l ↔ a = x ∨ a ∈ l := by
  induction l with
  | nil => simp [insortDesc]
  | cons q rest ih =>
    by_cases h : pubCit x < pubCit q
    · simp only [insortDesc, if_pos h, List.mem_cons, ih]
      tauto
    · simp only [insortDesc, if_neg h, List.mem_cons]

theorem mem_sortPubsDesc {a : Doc} {l : List Doc} :
    a ∈ sortPubsDesc l ↔ a ∈ l := by
  induction l with
  | nil => simp [sortPubsDesc]
  | cons x xs ih => simp [sortPubsDesc, mem_insortDesc, ih]

theorem pairwise_insortDesc {x : Doc} {l : List Doc}
    (h : l.Pairwise (fun a b => pubCit b ≤ pubCit a)) :
    (insortDesc x l).Pairwise (fun a b => pubCit b ≤ pubCit a) := by
  induction l with
  | nil => simp [insortDesc]
  | cons q rest ih =>
    rcases List.pairwise_cons.mp h with ⟨hq, hrest⟩
    by_cases hx : pubCit x < pubCit q
    · simp only [insortDesc, if_pos hx]
      refine List.pairwise_cons.mpr ⟨?_, ih hrest⟩
      intro a ha
      rcases mem_insortDesc.mp ha with rfl | ha
      · exact le_of_lt hx
      · exact hq a ha
    · simp only [insortDesc, if_neg hx]
      refine List.pairwise_cons.mpr ⟨?_, h⟩
      intro a ha
      rcases List.mem_cons.mp ha with rfl | ha
      · exact le_of_not_lt hx
      · exact le_trans (hq a ha) (le_of_not_lt hx)

theorem pairwise_sortPubsDesc (l : List Doc) :
    (sortPubsDesc l).Pairwise (fun a b => pubCit b ≤ pubCit a) := by
  induction l with
  | nil => simp [sortPubsDesc]
  | cons x xs ih => exact pairwise_insortDesc ih

theorem filter_insortDesc (c : Int) (x : Doc) (l : List Doc) :
    (insortDesc x l).filter (fun p => pubCit p = c) =
      if pubCit x = c then x :: l.filter (fun p => pubCit p = c)
      else l.filter (fun p => pubCit p = c) := by
  induction l with
  | nil => by_cases h : pubCit x = c <;> simp [insortDesc, List.filter, h]
  | cons q rest ih =>
    by_cases hlt : pubCit x < pubCit q
    · simp only [insortDesc, if_pos hlt]
      by_cases hq : pubCit q = c
      · have hx : ¬ pubCit x = c := by
          intro hx; rw [hx, hq] at hlt; exact lt_irrefl _ hlt
        simp [List.filter_cons, hq, hx, ih]
      · by_cases hx : pubCit x = c <;> simp [List.filter_cons, hq, hx, ih]
    · simp only [insortDesc, if_neg hlt]
      by_cases hx : pubCit x = c <;> by_cases hq : pubCit q = c <;>
        simp [List.filter_cons, hx, hq]

/-- Stability of the embedded sort: the records, restricted to any single
citation count, come out in exactly their input order. -/
theorem sortPubsDesc_filter (c : Int) (l : List Doc) :
    (sortPubsDesc l).filter (fun p => pubCit p = c) =
      l.filter (fun p => pubCit p = c) := by
  induction l with
  | nil => simp [sortPubsDesc]
  | cons x xs ih =>
    by_cases hx : pubCit x = c <;>
      simp [sortPubsDesc, filter_insortDesc, hx, List.filter_cons, ih]

/-! ### Timestamps

The script writes timestamps with `time.strftime('%Y-%m-%d %H:%M:%S')`
and reads them back with `datetime.strptime(s, '%Y-%m-%d %H:%M:%S')`.
Both are modelled below at the character level: rendering zero-pads each
field (`%Y` to width 4, the rest to width 2), parsing splits on the
separators, requires exactly 4 digits for the year and 1-2 digits for
the other fields (CPython's `_strptime` regexes), and then validates the
calendar fields exactly as the `datetime` constructor does. -/

/-- Big-endian decimal digit characters of `n`, with explicit fuel
(`natChars` supplies enough); `0` renders as the empty list, which
`padZeros` then turns into the zero-padded form. -/
def natCharsAux : Nat → Nat → List Char
  | 0, _ => []
  | _ + 1, 0 => []
  | fuel + 1, n + 1 => natCharsAux fuel ((n + 1) / 10) ++ [Nat.digitChar ((n + 1) % 10)]

def natChars (n : Nat) : List Char := natCharsAux n n

/-- Left-pad with zeros to width `w`: the `%0wd` rendering used by the
`strftime` directives of this format. -/
def padZeros (w : Nat) (cs : List Char) : List Char :=
  List.replicate (w - cs.length) '0' ++ cs

def padNat (w n : Nat) : List Char := padZeros w (natChars n)

/-- A wall-clock instant as the six fields of the script's timestamp
format. -/
structure DateTime where
  year : Nat
  month : Nat
  day : Nat
  hour : Nat
  minute : Nat
  second : Nat
deriving DecidableEq, Repr

/-- Model of `time.strftime('%Y-%m-%d %H:%M:%S')` at clock value `t`. -/
def strftimeYmdHMS (t : DateTime) : String :=
  String.mk (padNat 4 t.year ++ '-' :: (padNat 2 t.month ++ '-' :: (padNat 2 t.day ++
    ' ' :: (padNat 2 t.hour ++ ':' :: (padNat 2 t.minute ++ ':' :: padNat 2 t.second)))))

/-- Split a character list on a separator character (`str.split` on a
single character, as the strptime regex effectively does for this
format). -/
def splitOnChar (c : Char) : List Char → List (List Char)
  | [] => [[]]
  | x :: xs =>
    if x = c then [] :: splitOnChar c xs
    else
      match splitOnChar c xs with
      | [] => [[x]]
      | g :: gs => (x :: g) :: gs

def digitVal (c : Char) : Nat := c.toNat - 48

/-- Parse a non-empty all-digit run as a decimal number. -/
def parseNatDigits (cs : List Char) : Option Nat :=
  if cs.isEmpty then none
  else if cs.all Char.isDigit then
    some (cs.foldl (fun a c => 10 * a + digitVal c) 0)
  else none

def isLeapYear (y : Nat) : Bool := y % 4 == 0 && (y % 100 != 0 || y % 400 == 0)

def daysInMonth (y m : Nat) : Nat :=
  if m = 2 then (if isLeapYear y then 29 else 28)
  else if m = 4 ∨ m = 6 ∨ m = 9 ∨ m = 11 then 30
  else 31

/-- Field validation performed by the `datetime` constructor (year range
`1..9999`, calendar-valid day, clock-valid time). -/
def dtValid (t : DateTime) : Bool :=
  decide (1 ≤ t.year ∧ t.year ≤ 9999 ∧ 1 ≤ t.month ∧ t.month ≤ 12 ∧
    1 ≤ t.day ∧ t.day ≤ daysInMonth t.year t.month ∧
    t.hour ≤ 23 ∧ t.minute ≤ 59 ∧ t.second ≤ 59)

/-- Model of `datetime.strptime(s, '%Y-%m-%d %H:%M:%S')`: `none` is a
raised `ValueError`/`TypeError`. -/
def strptimeYmdHMS (s : String) : Option DateTime :=
  match splitOnChar ' ' s.data with
  | [datePart, timePart] =>
    match splitOnChar '-' datePart, splitOnChar ':' timePart with
    | [ys, ms, ds], [hs, mins, ss] =>
      match parseNatDigits ys, parseNatDigits ms, parseNatDigits ds,
            parseNatDigits hs, parseNatDigits mins, parseNatDigits ss with
      | some y, some mo, some d, some h, some mi, some se =>
        if ys.length = 4 ∧ ms.length ≤ 2 ∧ ds.length ≤ 2 ∧ hs.length ≤ 2 ∧
            mins.length ≤ 2 ∧ ss.length ≤ 2 ∧ dtValid ⟨y, mo, d, h, mi, se⟩ then
          some ⟨y, mo, d, h, mi, se⟩
        else none
      | _, _, _, _, _, _ => none
    | _, _ => none
  | _ => none

/-- Days from 0001-01-01 to the start of year `y` (proleptic Gregorian),
as `datetime.toordinal` computes it. -/
def daysBeforeYear (y : Nat) : Nat :=
  365 * (y - 1) + (y - 1) / 4 + (y - 1) / 400 - (y - 1) / 100

def daysBeforeMonth (y m : Nat) : Nat :=
  (List.range (m - 1)).foldl (fun acc i => acc + daysInMonth y (i + 1)) 0

/-- Seconds since 0001-01-01 00:00:00, the linearisation under which
`datetime` subtraction compares instants. -/
def DateTime.toSeconds (t : DateTime) : Int :=
  ((daysBeforeYear t.year + daysBeforeMonth t.year t.month + (t.day - 1)) * 86400
    + t.hour * 3600 + t.minute * 60 + t.second : Nat)

/-- Model of `datetime.now() - last_date < timedelta(days=7)`. -/
def freshWithin7Days (now last : DateTime) : Bool :=
  decide (now.toSeconds - last.toSeconds < 7 * 86400)

theorem natCharsAux_isDigit :
    ∀ fuel n c, c ∈ natCharsAux fuel n → c.isDigit = true := by
  have hd : ∀ d, d < 10 → (Nat.digitChar d).isDigit = true := by decide
  intro fuel
  induction fuel with
  | zero => intro n c hc; simp [natCharsAux] at hc
  | succ fuel ih =>
    intro n c hc
    match n with
    | 0 => simp [natCharsAux] at hc
    | n + 1 =>
      simp only [natCharsAux, List.mem_append, List.mem_singleton] at hc
      rcases hc with hc | rfl
      · exact ih _ _ hc
      · exact hd _ (Nat.mod_lt _ (by norm_num))

theorem foldl_natCharsAux (fuel : Nat) :
    ∀ n a, n ≤ fuel →
      (natCharsAux fuel n).foldl (fun acc c => 10 * acc + digitVal c) a =
        a * 10 ^ (natCharsAux fuel n).length + n := by
  have hd : ∀ d, d < 10 → digitVal (Nat.digitChar d) = d := by decide
  induction fuel with
  | zero =>
    intro n a hn
    interval_cases n
    simp [natCharsAux]
  | succ fuel ih =>
    intro n a hn
    match n with
    | 0 => simp [natCharsAux]
    | n + 1 =>
      have hdiv : (n + 1) / 10 ≤ fuel := by
        have := Nat.div_lt_self (Nat.succ_pos n) (by norm_num : 1 < 10)
        omega
      simp only [natCharsAux, List.foldl_append, List.foldl_cons, List.foldl_nil,
        List.length_append, List.length_singleton]
      rw [ih _ a hdiv, hd _ (Nat.mod_lt _ (by norm_num))]
      have hmod := Nat.div_add_mod (n + 1) 10
      ring_nf
      omega

theorem natCharsAux_length (fuel : Nat) :
    ∀ n k, n ≤ fuel → n < 10 ^ k → (natCharsAux fuel n).length ≤ k := by
  induction fuel with
  | zero =>
    intro n k hn _
    interval_cases n
    simp [natCharsAux]
  | succ fuel ih =>
    intro n k hn hk
    match n with
    | 0 => simp [natCharsAux]
    | n + 1 =>
      match k with
      | 0 => simp at hk
      | k + 1 =>
        have hdiv : (n + 1) / 10 ≤ fuel := by
          have := Nat.div_lt_self (Nat.succ_pos n) (by norm_num : 1 < 10)
          omega
        have hlt : (n + 1) / 10 < 10 ^ k := by
          rw [Nat.div_lt_iff_lt_mul (by norm_num : 0 < 10)]
          calc n + 1 < 10 ^ (k + 1) := hk
            _ = 10 ^ k * 10 := by ring
        simpa [natCharsAux] using ih _ k hdiv hlt

theorem padNat_length {w n : Nat} (h : n < 10 ^ w) : (padNat w n).length = w := by
  have hlen : (natChars n).length ≤ w := natCharsAux_length n n w le_rfl h
  simp only [padNat, padZeros, List.length_append, List.length_replicate]
  omega

theorem padNat_isDigit {w n : Nat} {c : Char} (hc : c ∈ padNat w n) :
    c.isDigit = true := by
  simp only [padNat, padZeros, List.mem_append, List.mem_replicate] at hc
  rcases hc with ⟨-, rfl⟩ | hc
  · decide
  · exact natCharsAux_isDigit n n c hc

theorem not_mem_padNat {w n : Nat} {c : Char} (hc : c.isDigit = false) :
    c ∉ padNat w n := fun h => by
  rw [padNat_isDigit h] at hc
  exact Bool.true_eq_false.mp hc

theorem parseNatDigits_padNat {w n : Nat} (hw : 1 ≤ w) (hn : n < 10 ^ w) :
    parseNatDigits (padNat w n) = some n := by
  have hlen := padNat_length hn
  have hne : (padNat w n).isEmpty = false := by
    cases h : padNat w n with
    | nil => rw [h] at hlen; simp at hlen; omega
    | cons a l => simp [List.isEmpty]
  have hall : (padNat w n).all Char.isDigit = true :=
    List.all_eq_true.mpr (fun c hc => padNat_isDigit hc)
  have hzero : ∀ m, (List.replicate m '0').foldl
      (fun a c => 10 * a + digitVal c) 0 = 0 := by
    intro m
    induction m with
    | zero => simp
    | succ m ihm => simpa [List.replicate_succ, digitVal] using ihm
  simp only [parseNatDigits, hne, Bool.false_eq_true, if_false, hall, if_true]
  simp only [padNat, padZeros, List.foldl_append, hzero]
  have hv := foldl_natCharsAux n n 0 le_rfl
  rw [Nat.zero_mul, Nat.zero_add] at hv
  simp [natChars, hv]

theorem splitOnChar_of_not_mem {c : Char} {l : List Char} (h : c ∉ l) :
    splitOnChar c l = [l] := by
  induction l with
  | nil => simp [splitOnChar]
  | cons x xs ih =>
    have hx : ¬ x = c := fun hh => h (hh ▸ List.mem_cons_self x xs)
    have hxs : c ∉ xs := fun hh => h (List.mem_cons_of_mem x hh)
    simp [splitOnChar, hx, ih hxs]

theorem splitOnChar_append {c : Char} {A B : List Char} (h : c ∉ A) :
    splitOnChar c (A ++ c :: B) = A :: splitOnChar c B := by
  induction A with
  | nil => simp [splitOnChar]
  | cons x A' ih =>
    have hx : ¬ x = c := fun hh => h (hh ▸ List.mem_cons_self x A')
    have hA : c ∉ A' := fun hh => h (List.mem_cons_of_mem x hh)
    simp [splitOnChar, hx, ih hA]

theorem daysInMonth_le_31 (y m : Nat) : daysInMonth y m ≤ 31 := by
  unfold daysInMonth
  split
  · split <;> norm_num
  · split <;> norm_num

theorem not_mem_three {c c1 c2 : Char} {A B C : List Char}
    (hA : c ∉ A) (hB : c ∉ B) (hC : c ∉ C) (h1 : c ≠ c1) (h2 : c ≠ c2) :
    c ∉ A ++ c1 :: (B ++ c2 :: C) := by
  intro hc
  simp only [List.mem_append, List.mem_cons] at hc
  rcases hc with hc | hc | hc | hc | hc
  exacts [hA hc, h1 hc, hB hc, h2 hc, hC hc]

/-- Round trip: a timestamp written by the script's `strftime` call is
accepted and inverted by the `strptime` call of the freshness gate. -/
theorem strptime_strftime (t : DateTime) (h : dtValid t = true) :
    strptimeYmdHMS (strftimeYmdHMS t) = some t := by
  obtain ⟨y, mo, d, hh, mi, se⟩ := t
  simp only [dtValid, decide_eq_true_eq] at h
  obtain ⟨hy1, hy2, hmo1, hmo2, hd1, hd2, hh2, hmi2, hse2⟩ := h
  have hdim := daysInMonth_le_31 y mo
  have hy4 : y < 10 ^ 4 := by norm_num; omega
  have hmoB : mo < 10 ^ 2 := by norm_num; omega
  have hdB : d < 10 ^ 2 := by norm_num; omega
  have hhB : hh < 10 ^ 2 := by norm_num; omega
  have hmiB : mi < 10 ^ 2 := by norm_num; omega
  have hseB : se < 10 ^ 2 := by norm_num; omega
  have hsplit1 : splitOnChar ' ' (strftimeYmdHMS ⟨y, mo, d, hh, mi, se⟩).data =
      [padNat 4 y ++ '-' :: (padNat 2 mo ++ '-' :: padNat 2 d),
       padNat 2 hh ++ ':' :: (padNat 2 mi ++ ':' :: padNat 2 se)] := by
    have hdata : (strftimeYmdHMS ⟨y, mo, d, hh, mi, se⟩).data =
        (padNat 4 y ++ '-' :: (padNat 2 mo ++ '-' :: padNat 2 d)) ++
          ' ' :: (padNat 2 hh ++ ':' :: (padNat 2 mi ++ ':' :: padNat 2 se)) := by
      simp [strftimeYmdHMS, List.append_assoc]
    rw [hdata,
      splitOnChar_append (not_mem_three (not_mem_padNat (by decide))
        (not_mem_padNat (by decide)) (not_mem_padNat (by decide))
        (by decide) (by decide)),
      splitOnChar_of_not_mem (not_mem_three (not_mem_padNat (by decide))
        (not_mem_padNat (by decide)) (not_mem_padNat (by decide))
        (by decide) (by decide))]
  have hsplitD : splitOnChar '-'
      (padNat 4 y ++ '-' :: (padNat 2 mo ++ '-' :: padNat 2 d)) =
      [padNat 4 y, padNat 2 mo, padNat 2 d] := by
    rw [splitOnChar_append (not_mem_padNat (by decide)),
      splitOnChar_append (not_mem_padNat (by decide)),
      splitOnChar_of_not_mem (not_mem_padNat (by decide))]
  have hsplitT : splitOnChar ':'
      (padNat 2 hh ++ ':' :: (padNat 2 mi ++ ':' :: padNat 2 se)) =
      [padNat 2 hh, padNat 2 mi, padNat 2 se] := by
    rw [splitOnChar_append (not_mem_padNat (by decide)),
      splitOnChar_append (not_mem_padNat (by decide)),
      splitOnChar_of_not_mem (not_mem_padNat (by decide))]
  have hcond : (padNat 4 y).length = 4 ∧ (padNat 2 mo).length ≤ 2 ∧
      (padNat 2 d).length ≤ 2 ∧ (padNat 2 hh).length ≤ 2 ∧
      (padNat 2 mi).length ≤ 2 ∧ (padNat 2 se).length ≤ 2 ∧
      dtValid ⟨y, mo, d, hh, mi, se⟩ := by
    refine ⟨padNat_length hy4, le_of_eq (padNat_length hmoB),
      le_of_eq (padNat_length hdB), le_of_eq (padNat_length hhB),
      le_of_eq (padNat_length hmiB), le_of_eq (padNat_length hseB), ?_⟩
    simp only [dtValid, decide_eq_true_eq]
    exact ⟨hy1, hy2, hmo1, hmo2, hd1, hd2, hh2, hmi2, hse2⟩
  simp only [strptimeYmdHMS, hsplit1, hsplitD, hsplitT,
    parseNatDigits_padNat (by norm_num : 1 ≤ 4) hy4,
    parseNatDigits_padNat (by norm_num : (1:Nat) ≤ 2) hmoB,
    parseNatDigits_padNat (by norm_num : (1:Nat) ≤ 2) hdB,
    parseNatDigits_padNat (by norm_num : (1:Nat) ≤ 2) hhB,
    parseNatDigits_padNat (by norm_num : (1:Nat) ≤ 2) hmiB,
    parseNatDigits_padNat (by norm_num : (1:Nat) ≤ 2) hseB,
    if_pos hcond]

/-! ### Strings -/

/-- Model of Python `s.lower()` (the identity strings involved are
ASCII, where `Char.toLower` agrees with `str.lower`). -/
def pyLower (s : String) : String := String.mk (s.data.map Char.toLower)

/-- Check that `hay` starts with `needle`. -/
def startsWithChars : List Char → List Char → Bool
  | _, [] => true
  | [], _ :: _ => false
  | h :: hs, n :: ns => h == n && startsWithChars hs ns

/-- Model of the Python substring test `needle in hay`. -/
def containsSub (needle : List Char) : List Char → Bool
  | [] => needle.isEmpty
  | c :: rest => startsWithChars (c :: rest) needle || containsSub needle rest

/-- Substring test on strings: `strContains hay needle` is Python's
`needle in hay`. -/
def strContains (hay needle : String) : Bool := containsSub needle.data hay.data

theorem startsWithChars_append {h n1 n2 : List Char}
    (hs : startsWithChars h (n1 ++ n2) = true) : startsWithChars h n1 = true := by
  induction n1 generalizing h with
  | nil => simp [startsWithChars]
  | cons x xs ih =>
    match h with
    | [] => simp [startsWithChars] at hs
    | c :: cs =>
      simp only [List.cons_append, startsWithChars, Bool.and_eq_true] at hs ⊢
      exact ⟨hs.1, ih hs.2⟩

theorem containsSub_append {n1 n2 hay : List Char}
    (hc : containsSub (n1 ++ n2) hay = true) : containsSub n1 hay = true := by
  induction hay with
  | nil =>
    simp only [containsSub, List.isEmpty_eq_true, List.append_eq_nil] at hc ⊢
    exact hc.1
  | cons c rest ih =>
    simp only [containsSub, Bool.or_eq_true] at hc ⊢
    rcases hc with hc | hc
    · exact Or.inl (startsWithChars_append hc)
    · exact Or.inr (ih hc)

/-! ### Raw library data

Typed models of the `scholarly` objects the script consumes.  An
`Option` field models presence or absence of the corresponding dict
key.  `RawPub.raises` is the oracle for "processing this entry raises"
(the per-entry `try`/`except` at lines 371-423 of the script), and
`RawPub.detailRaises` for the inner detail-extraction `try` (lines
395-409). -/

structure Bib where
  title : Option String := none
  author : Option String := none
  venue : Option String := none
  pub_year : Option JVal := none
  journal : Option String := none
  conference : Option String := none

structure RawPub where
  bib : Option Bib := none
  num_citations : Option Int := none
  pub_url : Option String := none
  author_pub_id : Option String := none
  raises : Bool := false
  detailRaises : Bool := false

structure Author where
  name : Option String := none
  affiliation : Option String := none
  interests : Option (List String) := none
  email_domain : Option String := none
  homepage : Option String := none
  citedby : Option Int := none
  hindex : Option Int := none
  i10index : Option Int := none
  cites_per_year : Option Doc := none
  filled : Bool := false
  publications : Option (List RawPub) := none

/-- Model of `_extract_profile_info` (lines 313-335): each field is
`author.get(key, default)`. -/
def extract_profile_info (a : Author) : Doc :=
  [("name", .str (a.name.getD "")),
   ("affiliation", .str (a.affiliation.getD "")),
   ("interests", .arr ((a.interests.getD []).map JVal.str)),
   ("email_domain", .str (a.email_domain.getD "")),
   ("homepage", .str (a.homepage.getD "")),
   ("total_citations", .int (a.citedby.getD 0)),
   ("h_index", .int (a.hindex.getD 0)),
   ("i10_index", .int (a.i10index.getD 0)),
   ("citations_per_year", .obj (a.cites_per_year.getD []))]

/-- Model of Python `int(v)` on the JSON values that can occur:
`some` is a successful conversion, `none` a raised
`ValueError`/`TypeError` (both caught by the script). -/
def pyIntCoerce : JVal → Option Int
  | .int n => some n
  | .bool b => some (if b then 1 else 0)
  | .str s => s.toInt?
  | _ => none

/-- The basic record built at lines 384-392: note that `year` uses
`pub.get('bib', dict()).get('pub_year')` with no default, so an absent
`pub_year` yields `None` (`JVal.null`), unlike every other field. -/
def normalizeBasic (p : RawPub) : Doc :=
  [("title", .str ((p.bib.bind Bib.title).getD "")),
   ("authors", .str ((p.bib.bind Bib.author).getD "")),
   ("venue", .str ((p.bib.bind Bib.venue).getD "")),
   ("year", (p.bib.bind Bib.pub_year).getD JVal.null),
   ("citations", .int (p.num_citations.getD 0)),
   ("pub_url", .str (p.pub_url.getD "")),
   ("key", .str (p.author_pub_id.getD ""))]

/-- The venue fallback at lines 396-399: when `pub_data['venue']` is
falsy and a `bib` key exists, set it to
`bib.get('journal', bib.get('conference', ''))`. -/
def venueFix (p : RawPub) (pd : Doc) : Doc :=
  if !truthy (dgetD pd "venue" (.str "")) && p.bib.isSome then
    dset pd "venue" (.str (match p.bib with
      | some b => b.journal.getD (b.conference.getD "")
      | none => ""))
  else pd

/-- The year coercion at lines 401-406: a truthy year is passed through
`int(...)`, with `ValueError`/`TypeError` swallowed (value kept). -/
def yearFix (d : Doc) : Doc :=
  if truthy (dgetD d "year" .null) then
    match pyIntCoerce (dgetD d "year" .null) with
    | some n => dset d "year" (.int n)
    | none => d
  else d

/-- The detail step at lines 394-409; `detailRaises` models the inner
`except detail_error` (record kept as built so far). -/
def normalizeDetail (p : RawPub) (pd : Doc) : Doc :=
  if p.detailRaises then pd else yearFix (venueFix p pd)

def normalizePub (p : RawPub) : Doc := normalizeDetail p (normalizeBasic p)

/-- Round-half-even of the rational `num / den` to an integer (Python's
`round`), for non-negative arguments. -/
def roundHalfEven (num den : Nat) : Nat :=
  let q := num / den
  let r := num % den
  if 2 * r < den then q
  else if den < 2 * r then q + 1
  else if q % 2 = 0 then q else q + 1

/-- Model of `round((current / total) * 100, 2)` in exact arithmetic:
the value rounded half-even to a whole number of hundredths.  (The
script computes this on binary floats; the spec-level reading "rounded
to 2 decimal places" is the exact-arithmetic one.) -/
def pctRound2 (current total : Nat) : ℚ :=
  (roundHalfEven (current * 10000) total : ℚ) / 100

/-- The checkpoint document built by `_save_intermediate_result`
(lines 431-455): `{**profile_data, 'publications': sorted_pubs,
'scraping_progress': ..., 'last_updated': ..., 'scraper_method':
'scholarly'}`. -/
def intermediateResult (pd : Doc) (publications : List Doc)
    (current total : Nat) (now : DateTime) : Doc :=
  dmerge pd
    [("publications", .arr ((sortPubsDesc publications).map JVal.obj)),
     ("scraping_progress", .obj
        [("current", .int current), ("total", .int total),
         ("percentage", .num (pctRound2 current total))]),
     ("last_updated", .str (strftimeYmdHMS now)),
     ("scraper_method", .str "scholarly")]

/-- The publication loop of `_extract_publications` (lines 371-423).
Returns `(publications in discovery order, checkpoint documents passed
to _save_intermediate_result, checkpoint documents whose file write
succeeded)`.  A raising entry (`p.raises`) is skipped by the `except` at
line 421 (`continue`); the checkpoint at line 414-415 fires when
`i % 10 == 0 and profile_data` (0-based `i`, truthy = non-empty dict);
a failed write (`wk i = false`) is caught inside
`_save_intermediate_result` and affects nothing but the file. -/
def extractLoop (pd : Doc) (now : DateTime) (wk : Nat → Bool) (total : Nat) :
    List RawPub → Nat → List Doc → List Doc × List Doc × List Doc
  | [], _, acc => (acc, [], [])
  | p :: rest, i, acc =>
    if p.raises then extractLoop pd now wk total rest (i + 1) acc
    else if i % 10 == 0 && !pd.isEmpty then
      ((extractLoop pd now wk total rest (i + 1) (acc ++ [normalizePub p])).1,
       intermediateResult pd (acc ++ [normalizePub p]) (i + 1) total now ::
         (extractLoop pd now wk total rest (i + 1) (acc ++ [normalizePub p])).2.1,
       if wk i then
         intermediateResult pd (acc ++ [normalizePub p]) (i + 1) total now ::
           (extractLoop pd now wk total rest (i + 1) (acc ++ [normalizePub p])).2.2
       else (extractLoop pd now wk total rest (i + 1) (acc ++ [normalizePub p])).2.2)
    else extractLoop pd now wk total rest (i + 1) (acc ++ [normalizePub p])

/-- Lines 344-365: where the raw publication list comes from.  If the
author dict has no `publications` key and is not marked filled, one
`scholarly.fill` is attempted (`fillInExtract`; `none` models a raised
exception); an author without publications after that yields `[]`. -/
def getPubsSource (a : Author) (fillInExtract : Option Author) :
    Option (List RawPub) :=
  match a.publications with
  | some raws => some raws
  | none =>
    if a.filled then none
    else
      match fillInExtract with
      | none => none
      | some fa => fa.publications

/-- Model of `_extract_publications` (lines 337-429): the loop above
followed by the in-place stable sort by citations, descending
(line 426). -/
def extract_publications (a : Author) (pd : Doc) (now : DateTime)
    (fillInExtract : Option Author) (wk : Nat → Bool) :
    List Doc × List Doc × List Doc :=
  match getPubsSource a fillInExtract with
  | none => ([], [], [])
  | some raws =>
    let r := extractLoop pd now wk raws.length raws 0 []
    (sortPubsDesc r.1, r.2.1, r.2.2)

/-- The retry loop of the detail filler (lines 130-147), iterating over
the remaining attempt indices (`range(3)`).  Before attempt `k > 0` the
script sleeps `10 * k` seconds; the returned list records the sleeps.
`oracle k = none` models `scholarly.fill` raising on attempt `k`; when
the last attempt fails the basic author record is used. -/
def fillLoop (a : Author) (oracle : Nat → Option Author) :
    List Nat → Author × List Nat
  | [] => (a, [])
  | k :: rest =>
    let sleeps := if k > 0 then [10 * k] else []
    match oracle k with
    | some r => (r, sleeps)
    | none =>
      match rest with
      | [] => (a, sleeps)
      | _ :: _ =>
        let rr := fillLoop a oracle rest
        (rr.1, sleeps ++ rr.2)

/-- The detail filler of `get_profile_data` (lines 124-150): skip when
`author.get('filled', False)`, else up to 3 fill attempts. -/
def fillWithRetry (a : Author) (oracle : Nat → Option Author) :
    Author × List Nat :=
  if a.filled then (a, []) else fillLoop a oracle [0, 1, 2]

/-! ### File system, fallbacks and the pipeline -/

/-- State of `gs_data.json` as seen by a reader: `none` = file absent;
`some none` = present but unreadable, not JSON, or not a JSON object
(every reader in the script turns each of those into the same caught
exception); `some (some d)` = parses to the object `d`. -/
abbrev FileState := Option (Option Doc)

/-- The hardcoded placeholder profile of `_fallback_data`
(lines 222-236). -/
def fallback_placeholder (now : DateTime) : Doc :=
  [("name", .str "Yuhang Zang"),
   ("affiliation", .str "Shanghai AI Laboratory"),
   ("interests", .arr [.str "Vision Language Model", .str "Computer Vision",
      .str "Natural Language Processing"]),
   ("email_domain", .str ""),
   ("homepage", .str ""),
   ("total_citations", .int 0),
   ("h_index", .int 0),
   ("i10_index", .int 0),
   ("citations_per_year", .obj []),
   ("publications", .arr []),
   ("last_updated", .str (strftimeYmdHMS now)),
   ("scraper_method", .str "scholarly"),
   ("note", .str "Fallback data due to scraping failure")]

/-- Model of `_fallback_data` (lines 220-249): prefer the on-disk
document with its timestamp refreshed and a failure note; on any read
or parse error fall back to the hardcoded placeholder. -/
def fallback_data (file : FileState) (now : DateTime) : Doc :=
  match file with
  | some (some d) =>
    dset (dset d "last_updated" (.str (strftimeYmdHMS now))) "note"
      (.str "Existing data due to scraping failure")
  | _ => fallback_placeholder now

/-- Model of `_use_recent_data` (lines 187-206).  A non-string truthy
`last_updated` makes `strptime` raise `TypeError`, caught by the outer
`except` at line 204; a falsy one skips the parse; either way the
result is `False`, so the non-string cases all return `false`. -/
def use_recent_data (file : FileState) (now : DateTime) : Bool :=
  match file with
  | some (some d) =>
    match dgetD d "last_updated" (.str "") with
    | .str s =>
      if s.isEmpty then false
      else
        match strptimeYmdHMS s with
        | some t => freshWithin7Days now t
        | none => false
    | _ => false
  | _ => false

/-- Model of `_load_existing_data` (lines 208-218): `none` is the
`return None` of its `except` branch. -/
def load_existing_data (file : FileState) (now : DateTime) : Option Doc :=
  match file with
  | some (some d) =>
    some (dset (dset d "last_updated" (.str (strftimeYmdHMS now))) "note"
      (.str "Using recent existing data"))
  | _ => none

/-- The acceptance test of `_try_alternative_search` (lines 266-277):
affiliation contains a hardcoded lab substring (lower-cased), or name
contains the hardcoded target name (lower-cased). -/
def candMatch (a : Author) : Bool :=
  strContains (pyLower (a.affiliation.getD "")) "shanghai ai laboratory" ||
  strContains (pyLower (a.affiliation.getD "")) "shanghai ai lab" ||
  strContains (pyLower (a.name.getD "")) "yuhang zang"

/-- Oracles for everything outside the script: the clock, the file, the
`scholarly` calls, write failures, and whether an exception (including
the 1-hour `TimeoutError` of the `@timeout` decorator) escapes the body
of `get_profile_data` into its outer `except` handlers.  `s1`-`s3` are
the three `search_author_id` calls of lines 94-107 (`Except.error` = the
call raises, `ok none` = a falsy result). -/
structure Env where
  isGH : Bool
  file : FileState
  now : DateTime
  raises : Bool
  s1 : Except Unit (Option Author)
  s2 : Except Unit (Option Author)
  s3 : Except Unit (Option Author)
  fillTries : Nat → Option Author
  fillInExtract : Option Author
  altCandidates : Option (List Author)
  altFill : Option Author
  writeOk : Nat → Bool

/-- The author-resolution ladder of lines 91-107: lightweight lookup,
then `filled=True` on a falsy result, then `filled=True` with
`publication_limit=100` when the record lacks a publications key.  Any
raise propagates to the `except` at line 109. -/
def searchLadder (s1 s2 s3 : Except Unit (Option Author)) :
    Except Unit (Option Author) :=
  match s1 with
  | .error e => .error e
  | .ok none => s2
  | .ok (some a) => if a.publications.isNone then s3 else .ok (some a)

/-- Model of `_try_alternative_search` (lines 251-311): search by the
hardcoded name, scan at most the first 5 candidates, accept the first
match; fill it (falling back to the unfilled record on error), assemble
the result; any failure returns `_fallback_data`. -/
def try_alternative_search (env : Env) : Doc :=
  match env.altCandidates with
  | none => fallback_data env.file env.now
  | some cands =>
    match (cands.take 5).find? candMatch with
    | none => fallback_data env.file env.now
    | some found =>
      let af := env.altFill.getD found
      let pd := extract_profile_info af
      let pubs := (extract_publications af pd env.now env.fillInExtract env.writeOk).1
      dmerge pd
        [("publications", .arr (pubs.map JVal.obj)),
         ("last_updated", .str (strftimeYmdHMS env.now)),
         ("scraper_method", .str "scholarly-alternative"),
         ("note", .str "Found via alternative name search")]

/-- Model of `get_profile_data` (lines 81-185).  `env.raises = true`
models a `TimeoutError` or any other exception escaping the `try` body:
both outer `except` branches return `_fallback_data()`.  The GitHub
Actions freshness gate runs first; a raising or falsy author search
diverts to `_try_alternative_search`. -/
def get_profile_data (env : Env) : Option Doc :=
  if env.raises then some (fallback_data env.file env.now)
  else if env.isGH && use_recent_data env.file env.now then
    load_existing_data env.file env.now
  else
    match searchLadder env.s1 env.s2 env.s3 with
    | .error _ => some (try_alternative_search env)
    | .ok none => some (try_alternative_search env)
    | .ok (some author) =>
      let author_filled := (fillWithRetry author env.fillTries).1
      let pd := extract_profile_info author_filled
      let pubs :=
        (extract_publications author_filled pd env.now env.fillInExtract env.writeOk).1
      some (dmerge pd
        [("publications", .arr (pubs.map JVal.obj)),
         ("last_updated", .str (strftimeYmdHMS env.now)),
         ("scraper_method", .str "scholarly")])

/-- Model of `scrape_all` (lines 457-471): strip `scraping_progress`
from the final result; `if data:` distinguishes a dict from `None`
(documents reaching this point are never empty dicts). -/
def scrape_all (env : Env) : Option Doc :=
  match get_profile_data env with
  | some data => some (ddel data "scraping_progress")
  | none => none

/-- Observable outcome of a `main` run: exit status, lines printed to
the console (the script's diagnostic stream is stdout; only the lines
relevant to argument handling are tracked), and the final document
written to `gs_data.json`, if any. -/
structure RunResult where
  exitCode : Nat
  console : List String
  written : Option Doc

def usageLines : List String :=
  ["Usage: python scrape_scholar.py <user_id>",
   "Example: python scrape_scholar.py hW23VKIAAAAJ"]

/-- Model of `main` (lines 473-502).  `argv` is the full `sys.argv`
(program name first); with no positional argument the script prints the
usage lines and exits with status 1. -/
def main (argv : List String) (env : Env) : RunResult :=
  if argv.length < 2 then ⟨1, usageLines, none⟩
  else
    match scrape_all env with
    | some data => ⟨0, [], some data⟩
    | none => ⟨1, ["Failed to scrape data"], none⟩

/-! ### Helper lemmas about the assembled documents -/

/-- Citation count of an entry of a document's `publications` array. -/
def citOf : JVal → Int
  | .obj fs => pubCit fs
  | _ => 0

/-- The sortedness invariant of a Result Document: its `publications`
array, when present, is ordered by citation count descending. -/
def docPubsSorted (d : Doc) : Prop :=
  ∀ l, dget d "publications" = some (.arr l) →
    l.Pairwise (fun x y => citOf y ≤ citOf x)

theorem dget_dmerge_ne (pd : Doc) (kvs : List (String × JVal)) (k : String)
    (h : ∀ kv ∈ kvs, kv.1 ≠ k) : dget (dmerge pd kvs) k = dget pd k := by
  induction kvs generalizing pd with
  | nil => rfl
  | cons kv rest ih =>
    have hk : kv.1 ≠ k := h kv (List.mem_cons_self kv rest)
    have hrest : ∀ kv' ∈ rest, kv'.1 ≠ k :=
      fun kv' hm => h kv' (List.mem_cons_of_mem kv hm)
    show dget (dmerge (dset pd kv.1 kv.2) rest) k = dget pd k
    rw [ih (dset pd kv.1 kv.2) hrest, dget_dset_ne _ _ _ _ (fun hh => hk hh.symm)]

theorem dget_dmerge_head (pd : Doc) (k : String) (v : JVal)
    (rest : List (String × JVal)) (h : ∀ kv ∈ rest, kv.1 ≠ k) :
    dget (dmerge pd ((k, v) :: rest)) k = some v := by
  show dget (dmerge (dset pd k v) rest) k = some v
  rw [dget_dmerge_ne _ _ _ h, dget_dset_self]

theorem pairwise_map_obj {l : List Doc}
    (h : l.Pairwise (fun x y => pubCit y ≤ pubCit x)) :
    (l.map JVal.obj).Pairwise (fun x y => citOf y ≤ citOf x) := by
  rw [List.pairwise_map]
  exact h

theorem forall_fst_ne_two {k1 k2 target : String} {v1 v2 : JVal}
    (h1 : k1 ≠ target) (h2 : k2 ≠ target) :
    ∀ kv ∈ [(k1, v1), (k2, v2)], (kv : String × JVal).1 ≠ target := by
  rintro kv hkv
  rcases List.mem_cons.mp hkv with rfl | hkv
  · exact h1
  · rcases List.mem_cons.mp hkv with rfl | hkv
    · exact h2
    · cases hkv

theorem forall_fst_ne_three {k1 k2 k3 target : String} {v1 v2 v3 : JVal}
    (h1 : k1 ≠ target) (h2 : k2 ≠ target) (h3 : k3 ≠ target) :
    ∀ kv ∈ [(k1, v1), (k2, v2), (k3, v3)], (kv : String × JVal).1 ≠ target := by
  rintro kv hkv
  rcases List.mem_cons.mp hkv with rfl | hkv
  · exact h1
  · exact forall_fst_ne_two h2 h3 kv hkv

/-- Any document of the shape `{**pd, 'publications': sorted-pubs, ...}`
satisfies the sortedness invariant. -/
theorem docPubsSorted_dmerge_pubs (pd : Doc) (pubs : List Doc)
    (h : pubs.Pairwise (fun x y => pubCit y ≤ pubCit x))
    (kvs : List (String × JVal)) (hkvs : ∀ kv ∈ kvs, kv.1 ≠ "publications") :
    docPubsSorted (dmerge pd (("publications", .arr (pubs.map JVal.obj)) :: kvs)) := by
  intro l hget
  rw [dget_dmerge_head _ _ _ _ hkvs] at hget
  injection hget with hget
  cases hget
  exact pairwise_map_obj h

/-- Every checkpoint document handed to `_save_intermediate_result` is
an `intermediateResult`. -/
theorem extractLoop_snd_shape (pd : Doc) (now : DateTime) (wk : Nat → Bool)
    (total : Nat) :
    ∀ (raws : List RawPub) (i : Nat) (acc : List Doc) (w : Doc),
      w ∈ (extractLoop pd now wk total raws i acc).2.1 →
      ∃ cur pubs, w = intermediateResult pd pubs cur total now := by
  intro raws
  induction raws with
  | nil => intro i acc w hw; simp [extractLoop] at hw
  | cons p rest ih =>
    intro i acc w hw
    rw [extractLoop] at hw
    split at hw
    · exact ih _ _ _ hw
    · split at hw
      · rcases List.mem_cons.mp hw with rfl | hw
        · exact ⟨_, _, rfl⟩
        · exact ih _ _ _ hw
      · exact ih _ _ _ hw

theorem extract_publications_fst_pairwise (a : Author) (pd : Doc)
    (now : DateTime) (fo : Option Author) (wk : Nat → Bool) :
    ((extract_publications a pd now fo wk).1).Pairwise
      (fun x y => pubCit y ≤ pubCit x) := by
  unfold extract_publications
  split
  · simp
  · exact pairwise_sortPubsDesc _

theorem docPubsSorted_fallback (file : FileState) (now : DateTime)
    (hfile : ∀ d0, file = some (some d0) → docPubsSorted d0) :
    docPubsSorted (fallback_data file now) := by
  match file with
  | some (some d) =>
    intro l hget
    simp only [fallback_data] at hget
    rw [dget_dset_ne _ _ _ _ (by decide), dget_dset_ne _ _ _ _ (by decide)] at hget
    exact hfile d rfl l hget
  | some none =>
    intro l hget
    have hv : dget (fallback_data (some none) now) "publications" =
        some (.arr []) := rfl
    rw [hv] at hget
    cases hget
    exact List.Pairwise.nil
  | none =>
    intro l hget
    have hv : dget (fallback_data none now) "publications" =
        some (.arr []) := rfl
    rw [hv] at hget
    cases hget
    exact List.Pairwise.nil

theorem docPubsSorted_load (file : FileState) (now : DateTime) (d : Doc)
    (hfile : ∀ d0, file = some (some d0) → docPubsSorted d0)
    (h : load_existing_data file now = some d) : docPubsSorted d := by
  match file with
  | some (some d0) =>
    intro l hget
    simp only [load_existing_data] at h
    injection h with h
    subst h
    rw [dget_dset_ne _ _ _ _ (by decide), dget_dset_ne _ _ _ _ (by decide)] at hget
    exact hfile d0 rfl l hget
  | some none => cases h
  | none => cases h

theorem docPubsSorted_alt (env : Env)
    (hfile : ∀ d0, env.file = some (some d0) → docPubsSorted d0) :
    docPubsSorted (try_alternative_search env) := by
  unfold try_alternative_search
  split
  · exact docPubsSorted_fallback _ _ hfile
  · split
    · exact docPubsSorted_fallback _ _ hfile
    · exact docPubsSorted_dmerge_pubs _ _
        (extract_publications_fst_pairwise _ _ _ _ _) _
        (forall_fst_ne_three (by decide) (by decide) (by decide))

/-- C1: every Result Document produced by `get_profile_data` (assuming
any document already on disk is itself sorted, which the other two
conjuncts establish for everything this program writes), and every
checkpoint passed to `_save_intermediate_result`, has its publications
sorted by citation count descending; and the sort is stable — entries
with equal citation counts keep their discovery order. -/
theorem C1_publications_sorted_stable :
    (∀ env : Env, (∀ d0, env.file = some (some d0) → docPubsSorted d0) →
      ∀ d, get_profile_data env = some d → docPubsSorted d) ∧
    (∀ (a : Author) (pd : Doc) (now : DateTime) (fo : Option Author)
      (wk : Nat → Bool) (w : Doc),
      w ∈ (extract_publications a pd now fo wk).2.1 → docPubsSorted w) ∧
    (∀ (l : List Doc) (c : Int),
      (sortPubsDesc l).filter (fun p => decide (pubCit p = c)) =
        l.filter (fun p => decide (pubCit p = c))) := by
  refine ⟨?_, ?_, ?_⟩
  · intro env hfile d hd
    unfold get_profile_data at hd
    by_cases hr : env.raises
    · rw [if_pos hr] at hd
      injection hd with hd
      subst hd
      exact docPubsSorted_fallback _ _ hfile
    · rw [if_neg hr] at hd
      by_cases hg : env.isGH && use_recent_data env.file env.now
      · rw [if_pos hg] at hd
        exact docPubsSorted_load _ _ _ hfile hd
      · rw [if_neg hg] at hd
        cases hladder : searchLadder env.s1 env.s2 env.s3 with
        | error e =>
          rw [hladder] at hd
          injection hd with hd
          subst hd
          exact docPubsSorted_alt env hfile
        | ok ho =>
          cases ho with
          | none =>
            rw [hladder] at hd
            injection hd with hd
            subst hd
            exact docPubsSorted_alt env hfile
          | some a =>
            rw [hladder] at hd
            injection hd with hd
            subst hd
            exact docPubsSorted_dmerge_pubs _ _
              (extract_publications_fst_pairwise _ _ _ _ _) _
              (forall_fst_ne_two (by decide) (by decide))
  · intro a pd now fo wk w hw
    have hshape : ∃ cur tot pubs,
        w = intermediateResult pd pubs cur tot now := by
      unfold extract_publications at hw
      rcases hsrc : getPubsSource a fo with - | raws
      · rw [hsrc] at hw
        simp at hw
      · rw [hsrc] at hw
        obtain ⟨cur, pubs, hweq⟩ := extractLoop_snd_shape pd now wk
          raws.length raws 0 [] w hw
        exact ⟨cur, raws.length, pubs, hweq⟩
    obtain ⟨cur, tot, pubs, rfl⟩ := hshape
    exact docPubsSorted_dmerge_pubs _ _ (pairwise_sortPubsDesc _) _
      (forall_fst_ne_three (by decide) (by decide) (by decide))
  · intro l c
    exact sortPubsDesc_filter c l

/-! ### Concrete fixtures used by the witnesses -/

def testNow : DateTime := ⟨2025, 3, 1, 12, 0, 0⟩

def testEnv : Env where
  isGH := false
  file := none
  now := testNow
  raises := true
  s1 := .ok none
  s2 := .ok none
  s3 := .ok none
  fillTries := fun _ => none
  fillInExtract := none
  altCandidates := none
  altFill := none
  writeOk := fun _ => true

def testPd : Doc := [("name", JVal.str "T")]

def testAuthor1 : Author := { publications := some [{}] }

def testAuthorEmpty : Author := {}

theorem C1_witness :
    ([] : List JVal).Pairwise (fun x y => citOf y ≤ citOf x) ∧
    ((sortPubsDesc [normalizePub {}]).map JVal.obj).Pairwise
      (fun x y => citOf y ≤ citOf x) :=
  ⟨C1_publications_sorted_stable.1 testEnv (fun d0 h => by cases h) _ rfl [] rfl,
   C1_publications_sorted_stable.2.1 testAuthor1 testPd testNow none
     (fun _ => true)
     (intermediateResult testPd [normalizePub {}] 1 1 testNow)
     (List.mem_cons_self _ _)
     ((sortPubsDesc [normalizePub {}]).map JVal.obj) rfl⟩

/-- C5: the detail filler skips when the record is already filled;
otherwise it attempts the fill at most 3 times, sleeping `10 * k`
seconds before retry number `k`, and uses the partially-detailed record
when all three attempts fail. -/
theorem C5_detail_filler (a : Author) (o : Nat → Option Author) :
    (a.filled = true → fillWithRetry a o = (a, [])) ∧
    (a.filled = false →
      (∀ r, o 0 = some r → fillWithRetry a o = (r, [])) ∧
      (∀ r, o 0 = none → o 1 = some r → fillWithRetry a o = (r, [10])) ∧
      (∀ r, o 0 = none → o 1 = none → o 2 = some r →
        fillWithRetry a o = (r, [10, 20])) ∧
      (o 0 = none → o 1 = none → o 2 = none →
        fillWithRetry a o = (a, [10, 20]))) := by
  constructor
  · intro h
    simp [fillWithRetry, h]
  · intro h
    refine ⟨?_, ?_, ?_, ?_⟩
    · intro r h0
      simp [fillWithRetry, h, fillLoop, h0]
    · intro r h0 h1
      simp [fillWithRetry, h, fillLoop, h0, h1]
    · intro r h0 h1 h2
      simp [fillWithRetry, h, fillLoop, h0, h1, h2]
    · intro h0 h1 h2
      simp [fillWithRetry, h, fillLoop, h0, h1, h2]

theorem C5_witness :
    fillWithRetry testAuthorEmpty (fun _ => none) = (testAuthorEmpty, [10, 20]) :=
  ((C5_detail_filler testAuthorEmpty (fun _ => none)).2 rfl).2.2.2 rfl rfl rfl

/-- C9: invoked with no positional argument, the program prints the
usage message to its diagnostic stream (stdout, where the script sends
all diagnostics) and exits with status 1. -/
theorem C9_usage (argv : List String) (env : Env) (h : argv.length < 2) :
    (main argv env).exitCode = 1 ∧
    (main argv env).console = usageLines ∧
    "Usage: python scrape_scholar.py <user_id>" ∈ (main argv env).console := by
  unfold main
  rw [if_pos h]
  exact ⟨rfl, rfl, List.mem_cons_self _ _⟩

theorem C9_witness :
    (main [] testEnv).exitCode = 1 ∧ (main [] testEnv).console = usageLines ∧
    "Usage: python scrape_scholar.py <user_id>" ∈ (main [] testEnv).console :=
  C9_usage [] testEnv (by decide)

theorem strptime_empty : strptimeYmdHMS "" = none := rfl

theorem forall_fst_ne_nil {target : String} :
    ∀ kv ∈ ([] : List (String × JVal)), (kv : String × JVal).1 ≠ target :=
  fun kv hkv => absurd hkv (List.not_mem_nil kv)

theorem forall_fst_ne_one {k1 target : String} {v1 : JVal} (h1 : k1 ≠ target) :
    ∀ kv ∈ [(k1, v1)], (kv : String × JVal).1 ≠ target := by
  rintro kv hkv
  rcases List.mem_cons.mp hkv with rfl | hkv
  · exact h1
  · cases hkv

theorem forall_fst_ne_four {k1 k2 k3 k4 target : String} {v1 v2 v3 v4 : JVal}
    (h1 : k1 ≠ target) (h2 : k2 ≠ target) (h3 : k3 ≠ target)
    (h4 : k4 ≠ target) :
    ∀ kv ∈ [(k1, v1), (k2, v2), (k3, v3), (k4, v4)],
      (kv : String × JVal).1 ≠ target := by
  rintro kv hkv
  rcases List.mem_cons.mp hkv with rfl | hkv
  · exact h1
  · exact forall_fst_ne_three h2 h3 h4 kv hkv

theorem dget_dmerge_cons (pd : Doc) (kv : String × JVal)
    (kvs : List (String × JVal)) (k : String) :
    dget (dmerge pd (kv :: kvs)) k = dget (dmerge (dset pd kv.1 kv.2) kvs) k :=
  rfl

/-- C3: the freshness gate reuses the on-disk document exactly when the
file exists, parses to an object whose `last_updated` is a string in the
expected format, and that timestamp is less than 7 days old; every other
state (absent file, parse error, missing / empty / malformed / stale
timestamp) yields `false` — fetch required, never fatal.  When the gate
fires, the reused document is the on-disk one with its timestamp
refreshed to now and a reuse note. -/
theorem C3_freshness_gate (file : FileState) (now : DateTime) :
    (use_recent_data file now = true ↔
      ∃ d s t, file = some (some d) ∧
        dget d "last_updated" = some (.str s) ∧
        strptimeYmdHMS s = some t ∧ freshWithin7Days now t = true) ∧
    (∀ d, file = some (some d) →
      load_existing_data file now =
        some (dset (dset d "last_updated" (.str (strftimeYmdHMS now))) "note"
          (.str "Using recent existing data"))) := by
  constructor
  · constructor
    · intro h
      match file with
      | none => simp [use_recent_data] at h
      | some none => simp [use_recent_data] at h
      | some (some d) =>
        simp only [use_recent_data, dgetD] at h
        cases hlu : dget d "last_updated" with
        | none =>
          rw [hlu] at h
          simp at h
          exact absurd h.1 (by decide)
        | some v =>
          rw [hlu] at h
          cases v with
          | str s =>
            simp only [Option.getD_some] at h
            by_cases he : s.isEmpty
            · rw [if_pos he] at h; cases h
            · rw [if_neg he] at h
              cases hpt : strptimeYmdHMS s with
              | none => rw [hpt] at h; cases h
              | some t =>
                rw [hpt] at h
                exact ⟨d, s, t, rfl, hlu, hpt, h⟩
          | null => simp at h
          | int n => simp at h
          | num q => simp at h
          | bool b => simp at h
          | arr xs => simp at h
          | obj fs => simp at h
    · rintro ⟨d, s, t, rfl, hlu, hpt, hfresh⟩
      have hne : s.isEmpty = false := by
        cases he : s.isEmpty
        · rfl
        · exfalso
          have hs : s = "" := (String.isEmpty_iff s).mp he
          rw [hs, strptime_empty] at hpt
          cases hpt
      simp [use_recent_data, dgetD, hlu, hne, hpt, hfresh]
  · intro d hf
    rw [hf]
    rfl

def gateDoc : Doc := [("last_updated", JVal.str "2025-03-01 12:00:00")]

theorem C3_witness : use_recent_data (some (some gateDoc)) testNow = true :=
  (C3_freshness_gate (some (some gateDoc)) testNow).1.mpr
    ⟨gateDoc, "2025-03-01 12:00:00", testNow, rfl, rfl, rfl, rfl⟩

/-- C2: when an exception or the 1-hour timeout escapes the scrape
body, `get_profile_data` returns `_fallback_data()`: the prior on-disk
document with only its `last_updated` refreshed to now and a failure
note set, when one exists and parses; otherwise the hardcoded
placeholder profile with zero citations and no publications. -/
theorem C2_total_failure (env : Env) (h : env.raises = true) :
    get_profile_data env = some (fallback_data env.file env.now) ∧
    (∀ d, env.file = some (some d) →
      dget (fallback_data env.file env.now) "last_updated" =
          some (.str (strftimeYmdHMS env.now)) ∧
      dget (fallback_data env.file env.now) "note" =
          some (.str "Existing data due to scraping failure") ∧
      (∀ k, k ≠ "last_updated" → k ≠ "note" →
        dget (fallback_data env.file env.now) k = dget d k)) ∧
    ((∀ d, env.file ≠ some (some d)) →
      fallback_data env.file env.now = fallback_placeholder env.now) ∧
    dget (fallback_placeholder env.now) "total_citations" = some (.int 0) ∧
    dget (fallback_placeholder env.now) "publications" = some (.arr []) := by
  refine ⟨?_, ?_, ?_, rfl, rfl⟩
  · unfold get_profile_data
    rw [if_pos h]
  · intro d hf
    rw [hf]
    refine ⟨?_, dget_dset_self _ _ _, ?_⟩
    · show dget (dset (dset d "last_updated" _) "note" _) "last_updated" = _
      rw [dget_dset_ne _ _ _ _ (by decide), dget_dset_self]
    · intro k h1 h2
      show dget (dset (dset d "last_updated" _) "note" _) k = dget d k
      rw [dget_dset_ne _ _ _ _ h2, dget_dset_ne _ _ _ _ h1]
  · intro hne
    match hf : env.file with
    | none => rfl
    | some none => rfl
    | some (some d) => exact absurd hf (hne d)

theorem C2_witness : get_profile_data testEnv = some (fallback_data none testNow) :=
  (C2_total_failure testEnv rfl).1

/-- C7: every checkpoint document is a structurally valid Result
Document: it carries all the profile fields unchanged, the sorted
publications, `scraper_method`, and a `last_updated` timestamp that the
freshness gate's `strptime` parses back exactly; in particular the gate
itself accepts a just-written checkpoint. -/
theorem C7_checkpoint_roundtrip (pd : Doc) (pubs : List Doc)
    (current total : Nat) (now : DateTime) (hv : dtValid now = true) :
    dget (intermediateResult pd pubs current total now) "last_updated" =
        some (.str (strftimeYmdHMS now)) ∧
    strptimeYmdHMS (strftimeYmdHMS now) = some now ∧
    dget (intermediateResult pd pubs current total now) "scraper_method" =
        some (.str "scholarly") ∧
    dget (intermediateResult pd pubs current total now) "publications" =
        some (.arr ((sortPubsDesc pubs).map JVal.obj)) ∧
    dget (intermediateResult pd pubs current total now) "scraping_progress" =
        some (.obj [("current", .int current), ("total", .int total),
          ("percentage", .num (pctRound2 current total))]) ∧
    (∀ k, k ≠ "publications" → k ≠ "scraping_progress" → k ≠ "last_updated" →
      k ≠ "scraper_method" →
      dget (intermediateResult pd pubs current total now) k = dget pd k) ∧
    use_recent_data (some (some (intermediateResult pd pubs current total now)))
      now = true := by
  have hround := strptime_strftime now hv
  have hlu : dget (intermediateResult pd pubs current total now) "last_updated" =
      some (.str (strftimeYmdHMS now)) := by
    simp only [intermediateResult]
    rw [dget_dmerge_cons, dget_dmerge_cons]
    exact dget_dmerge_head _ _ _ _ (forall_fst_ne_one (by decide))
  refine ⟨hlu, hround, ?_, ?_, ?_, ?_, ?_⟩
  · simp only [intermediateResult]
    rw [dget_dmerge_cons, dget_dmerge_cons, dget_dmerge_cons]
    exact dget_dmerge_head _ _ _ _ forall_fst_ne_nil
  · simp only [intermediateResult]
    exact dget_dmerge_head _ _ _ _
      (forall_fst_ne_three (by decide) (by decide) (by decide))
  · simp only [intermediateResult]
    rw [dget_dmerge_cons]
    exact dget_dmerge_head _ _ _ _ (forall_fst_ne_two (by decide) (by decide))
  · intro k h1 h2 h3 h4
    simp only [intermediateResult]
    rw [dget_dmerge_ne _ _ _ (forall_fst_ne_four (Ne.symm h1) (Ne.symm h2)
      (Ne.symm h3) (Ne.symm h4))]
  · have hne : (strftimeYmdHMS now).isEmpty = false := by
      cases hemp : (strftimeYmdHMS now).isEmpty
      · rfl
      · exfalso
        have heq : strftimeYmdHMS now = "" :=
          (String.isEmpty_iff _).mp hemp
        rw [heq, strptime_empty] at hround
        cases hround
    simp only [use_recent_data, dgetD, hlu, Option.getD_some, hne,
      Bool.false_eq_true, if_false, hround, freshWithin7Days,
      decide_eq_true_eq]
    omega

theorem C7_witness : strptimeYmdHMS (strftimeYmdHMS testNow) = some testNow :=
  (C7_checkpoint_roundtrip testPd [] 1 1 testNow (by decide)).2.1

/-- Any occurrence of the longer hardcoded lab string is an occurrence
of the shorter one, so the two affiliation tests of the script collapse
to the shorter substring. -/
theorem lab_absorb {hay : List Char}
    (hc : containsSub ("shanghai ai laboratory".data) hay = true) :
    containsSub ("shanghai ai lab".data) hay = true := by
  have he : ("shanghai ai laboratory".data) =
      "shanghai ai lab".data ++ "oratory".data := rfl
  exact containsSub_append (he ▸ hc)

def testEnvAlt : Env where
  isGH := false
  file := none
  now := testNow
  raises := false
  s1 := .ok none
  s2 := .ok none
  s3 := .ok none
  fillTries := fun _ => none
  fillInExtract := none
  altCandidates := none
  altFill := none
  writeOk := fun _ => true

/-- C8: a raising or falsy author lookup diverts to the alternative
search, which scans only the first 5 candidates, accepts the first one
whose lower-cased affiliation contains the lab substring or whose
lower-cased name contains the target name (the two hardcoded lab
strings collapse to the shorter one), tags an accepted candidate's
document `scholarly-alternative`, and returns fallback data when the
search raises or none of the 5 match. -/
theorem C8_alternative_search (env : Env) :
    ((env.raises = false) →
      ((env.isGH && use_recent_data env.file env.now) = false) →
      (searchLadder env.s1 env.s2 env.s3 = .error () ∨
        searchLadder env.s1 env.s2 env.s3 = .ok none) →
      get_profile_data env = some (try_alternative_search env)) ∧
    (∀ a : Author, candMatch a = true ↔
      (strContains (pyLower (a.affiliation.getD "")) "shanghai ai lab" = true ∨
       strContains (pyLower (a.name.getD "")) "yuhang zang" = true)) ∧
    (∀ cands cands' : List Author, cands.take 5 = cands'.take 5 →
      try_alternative_search { env with altCandidates := some cands } =
        try_alternative_search { env with altCandidates := some cands' }) ∧
    (∀ cands, env.altCandidates = some cands →
      (∀ x ∈ cands.take 5, candMatch x = false) →
      try_alternative_search env = fallback_data env.file env.now) ∧
    (env.altCandidates = none →
      try_alternative_search env = fallback_data env.file env.now) ∧
    (∀ cands found, env.altCandidates = some cands →
      (cands.take 5).find? candMatch = some found →
      candMatch found = true ∧
      dget (try_alternative_search env) "scraper_method" =
          some (.str "scholarly-alternative")) := by
  refine ⟨?_, ?_, ?_, ?_, ?_, ?_⟩
  · intro h1 h2 h3
    unfold get_profile_data
    rw [if_neg (by simp [h1]), if_neg (by simp [h2])]
    rcases h3 with h3 | h3 <;> rw [h3]
  · intro a
    constructor
    · intro h
      unfold candMatch at h
      simp only [Bool.or_eq_true] at h
      rcases h with (h | h) | h
      · exact Or.inl (lab_absorb h)
      · exact Or.inl h
      · exact Or.inr h
    · intro h
      unfold candMatch
      rcases h with h | h <;> simp [h]
  · intro cands cands' htake
    simp only [try_alternative_search]
    rw [htake]
  · intro cands hc hnone
    have hfind : (cands.take 5).find? candMatch = none :=
      List.find?_eq_none.mpr (fun x hx => by simp [hnone x hx])
    simp only [try_alternative_search, hc, hfind]
  · intro hc
    simp only [try_alternative_search, hc]
  · intro cands found hc hfind
    refine ⟨List.find?_some hfind, ?_⟩
    simp only [try_alternative_search, hc, hfind]
    rw [dget_dmerge_cons, dget_dmerge_cons]
    exact dget_dmerge_head _ _ _ _ (forall_fst_ne_one (by decide))

theorem C8_witness :
    get_profile_data testEnvAlt = some (try_alternative_search testEnvAlt) :=
  (C8_alternative_search testEnvAlt).1 rfl rfl (Or.inr rfl)

/-- The publication loop keeps exactly the non-raising entries, in
order, each normalised. -/
theorem extractLoop_fst (pd : Doc) (now : DateTime) (wk : Nat → Bool)
    (total : Nat) :
    ∀ (raws : List RawPub) (i : Nat) (acc : List Doc),
      (extractLoop pd now wk total raws i acc).1 =
        acc ++ (raws.filter (fun p => !p.raises)).map normalizePub := by
  intro raws
  induction raws with
  | nil => intro i acc; simp [extractLoop]
  | cons p rest ih =>
    intro i acc
    cases hp : p.raises
    · rw [extractLoop, if_neg (by simp [hp])]
      have hfilter : (p :: rest).filter (fun q => !q.raises) =
          p :: rest.filter (fun q => !q.raises) := by
        simp [List.filter_cons, hp]
      split
      · show (extractLoop pd now wk total rest (i + 1)
            (acc ++ [normalizePub p])).1 = _
        rw [ih, hfilter]
        simp
      · rw [ih, hfilter]
        simp
    · rw [extractLoop, if_pos (by simp [hp]), ih]
      have hfilter : (p :: rest).filter (fun q => !q.raises) =
          rest.filter (fun q => !q.raises) := by
        simp [List.filter_cons, hp]
      rw [hfilter]

theorem extract_publications_fst (a : Author) (pd : Doc) (now : DateTime)
    (fo : Option Author) (wk : Nat → Bool) :
    (extract_publications a pd now fo wk).1 =
      sortPubsDesc ((((getPubsSource a fo).getD []).filter
        (fun p => !p.raises)).map normalizePub) := by
  unfold extract_publications
  rcases hsrc : getPubsSource a fo with - | raws
  · simp [hsrc, sortPubsDesc]
  · simp only [hsrc, Option.getD_some]
    show sortPubsDesc (extractLoop pd now wk raws.length raws 0 []).1 = _
    rw [extractLoop_fst]
    simp

def pubRecordKeys : List String :=
  ["title", "authors", "venue", "year", "citations", "pub_url", "key"]

theorem dkeys_normalizeBasic (p : RawPub) :
    dkeys (normalizeBasic p) = pubRecordKeys := rfl

theorem dkeys_venueFix (p : RawPub) (pd : Doc) (h : "venue" ∈ dkeys pd) :
    dkeys (venueFix p pd) = dkeys pd := by
  unfold venueFix
  split
  · exact dkeys_dset_of_mem _ _ _ h
  · rfl

theorem dkeys_yearFix (d : Doc) (h : "year" ∈ dkeys d) :
    dkeys (yearFix d) = dkeys d := by
  unfold yearFix
  split
  · split
    · exact dkeys_dset_of_mem _ _ _ h
    · rfl
  · rfl

theorem dkeys_normalizePub (p : RawPub) :
    dkeys (normalizePub p) = pubRecordKeys := by
  unfold normalizePub normalizeDetail
  split
  · exact dkeys_normalizeBasic p
  · have hvenue : "venue" ∈ dkeys (normalizeBasic p) := by
      rw [dkeys_normalizeBasic]
      decide
    have hyear : "year" ∈ dkeys (venueFix p (normalizeBasic p)) := by
      rw [dkeys_venueFix _ _ hvenue, dkeys_normalizeBasic]
      decide
    rw [dkeys_yearFix _ hyear, dkeys_venueFix _ _ hvenue,
      dkeys_normalizeBasic]

/-- C10: the normalizer implements the skip policy — a raising entry is
dropped and the batch continues, so the output is exactly the
normalisation of the non-raising entries in order (then sorted) — and
every emitted record carries exactly the seven keys `title`, `authors`,
`venue`, `year`, `citations`, `pub_url`, `key`. -/
theorem C10_skip_policy_full_keys :
    (∀ (a : Author) (pd : Doc) (now : DateTime) (fo : Option Author)
      (wk : Nat → Bool) (rec : Doc),
      rec ∈ (extract_publications a pd now fo wk).1 →
      dkeys rec = pubRecordKeys) ∧
    (∀ (pd : Doc) (now : DateTime) (wk : Nat → Bool) (total : Nat)
      (raws : List RawPub) (i : Nat) (acc : List Doc),
      (extractLoop pd now wk total raws i acc).1 =
        acc ++ (raws.filter (fun p => !p.raises)).map normalizePub) := by
  constructor
  · intro a pd now fo wk rec hrec
    rw [extract_publications_fst, mem_sortPubsDesc] at hrec
    obtain ⟨p, -, rfl⟩ := List.mem_map.mp hrec
    exact dkeys_normalizePub p
  · intro pd now wk total raws i acc
    exact extractLoop_fst pd now wk total raws i acc

theorem C10_witness : dkeys (normalizePub {}) = pubRecordKeys :=
  C10_skip_policy_full_keys.1 testAuthor1 testPd testNow none (fun _ => true)
    (normalizePub {}) (List.mem_cons_self _ _)

theorem dget_venueFix_ne (p : RawPub) (d : Doc) (k : String)
    (h : k ≠ "venue") : dget (venueFix p d) k = dget d k := by
  unfold venueFix
  split
  · exact dget_dset_ne _ _ _ _ h
  · rfl

theorem dget_yearFix_ne (d : Doc) (k : String) (h : k ≠ "year") :
    dget (yearFix d) k = dget d k := by
  unfold yearFix
  split
  · split
    · exact dget_dset_ne _ _ _ _ h
    · rfl
  · rfl

/-- C6 counterexample: a raw entry with no fields at all normalises to a
record whose `year` is `None` (the script reads `pub_year` with no
default), and that record — null year included — is exactly what the
extraction loop emits.  So a normalized field does null-propagate into
the output document, refuting the claim as stated. -/
theorem C6_counterexample :
    dget (normalizePub {}) "year" = some JVal.null ∧
    (extract_publications testAuthor1 testPd testNow none (fun _ => true)).1 =
      [normalizePub {}] := ⟨rfl, rfl⟩

/-- C6 amended: the string fields `title`, `authors`, `venue`,
`pub_url`, `key` default to the empty string and `citations` to zero
when the corresponding raw field is missing (`venue` falling back to
`journal`/`conference` first when a bib exists); the `year` field,
however, is `None` when `pub_year` is absent, and that null is retained
in the output record. -/
theorem C6_missing_field_defaults (p : RawPub) :
    (p.bib.bind Bib.title = none →
      dget (normalizePub p) "title" = some (.str "")) ∧
    (p.bib.bind Bib.author = none →
      dget (normalizePub p) "authors" = some (.str "")) ∧
    (p.pub_url = none → dget (normalizePub p) "pub_url" = some (.str "")) ∧
    (p.author_pub_id = none → dget (normalizePub p) "key" = some (.str "")) ∧
    (p.num_citations = none →
      dget (normalizePub p) "citations" = some (.int 0)) ∧
    (p.bib = none → dget (normalizePub p) "venue" = some (.str "")) ∧
    (∀ b, p.bib = some b → (b.venue = none ∨ b.venue = some "") →
      p.detailRaises = false →
      dget (normalizePub p) "venue" =
        some (.str (b.journal.getD (b.conference.getD "")))) ∧
    (p.bib.bind Bib.pub_year = none →
      dget (normalizePub p) "year" = some JVal.null) := by
  have hred : ∀ k, k ≠ "venue" → k ≠ "year" →
      dget (normalizePub p) k = dget (normalizeBasic p) k := by
    intro k h1 h2
    unfold normalizePub normalizeDetail
    split
    · rfl
    · rw [dget_yearFix_ne _ _ h2, dget_venueFix_ne _ _ _ h1]
  refine ⟨?_, ?_, ?_, ?_, ?_, ?_, ?_, ?_⟩
  · intro h
    rw [hred _ (by decide) (by decide),
      show dget (normalizeBasic p) "title" =
        some (.str ((p.bib.bind Bib.title).getD "")) from rfl, h]
    rfl
  · intro h
    rw [hred _ (by decide) (by decide),
      show dget (normalizeBasic p) "authors" =
        some (.str ((p.bib.bind Bib.author).getD "")) from rfl, h]
    rfl
  · intro h
    rw [hred _ (by decide) (by decide),
      show dget (normalizeBasic p) "pub_url" =
        some (.str (p.pub_url.getD "")) from rfl, h]
    rfl
  · intro h
    rw [hred _ (by decide) (by decide),
      show dget (normalizeBasic p) "key" =
        some (.str (p.author_pub_id.getD "")) from rfl, h]
    rfl
  · intro h
    rw [hred _ (by decide) (by decide),
      show dget (normalizeBasic p) "citations" =
        some (.int (p.num_citations.getD 0)) from rfl, h]
    rfl
  · intro h
    unfold normalizePub normalizeDetail
    split
    · rw [show dget (normalizeBasic p) "venue" =
        some (.str ((p.bib.bind Bib.venue).getD "")) from rfl, h]
      rfl
    · have hvf : venueFix p (normalizeBasic p) = normalizeBasic p := by
        unfold venueFix
        rw [if_neg (by simp [h])]
      rw [dget_yearFix_ne _ _ (by decide), hvf,
        show dget (normalizeBasic p) "venue" =
          some (.str ((p.bib.bind Bib.venue).getD "")) from rfl, h]
      rfl
  · intro b hb hv hdr
    unfold normalizePub normalizeDetail
    rw [if_neg (by simp [hdr])]
    rw [dget_yearFix_ne _ _ (by decide)]
    have hbv : dget (normalizeBasic p) "venue" =
        some (.str ((p.bib.bind Bib.venue).getD "")) := rfl
    have hcond : (!truthy (dgetD (normalizeBasic p) "venue" (.str "")) &&
        p.bib.isSome) = true := by
      rw [dgetD, hbv, Option.getD_some, hb]
      rcases hv with hv | hv
      · simp [hv, truthy]
        decide
      · simp [hv, truthy]
        decide
    unfold venueFix
    rw [if_pos hcond, dget_dset_self]
    simp [hb]
  · intro h
    unfold normalizePub normalizeDetail
    split
    · rw [show dget (normalizeBasic p) "year" =
        some ((p.bib.bind Bib.pub_year).getD JVal.null) from rfl, h]
      rfl
    · have hvy : dget (venueFix p (normalizeBasic p)) "year" =
          some ((p.bib.bind Bib.pub_year).getD JVal.null) := by
        rw [dget_venueFix_ne _ _ _ (by decide)]
        rfl
      have hcond : truthy (dgetD (venueFix p (normalizeBasic p)) "year"
          JVal.null) = false := by
        rw [dgetD, hvy, Option.getD_some, h]
        rfl
      unfold yearFix
      rw [if_neg (by simp [hcond]), hvy, h]
      rfl

theorem C6_witness : dget (normalizePub {}) "title" = some (JVal.str "") :=
  (C6_missing_field_defaults {}).1 rfl

def tenPubs : List RawPub := List.replicate 10 {}

def testAuthor10 : Author := { publications := some tenPubs }

/-- Projection of a checkpoint document's `scraping_progress.current`. -/
def currentOf (w : Doc) : Option JVal :=
  match dget w "scraping_progress" with
  | some (.obj sp) => dget sp "current"
  | _ => none

/-- C4 counterexample: a run over 10 publications (profile data
available, nothing raising) attempts exactly one checkpoint, and it is
written after the 1st publication (`current = 1`) — not after the 10th.
The trigger is `i % 10 == 0` on the 0-based index, so the checkpoints
fall after publications 1, 11, 21, ..., refuting "after every 10th
publication". -/
theorem C4_counterexample :
    ((extract_publications testAuthor10 testPd testNow none
        (fun _ => true)).2.1).map currentOf = [some (JVal.int 1)] := rfl

theorem extractLoop_wk_eq (pd : Doc) (now : DateTime) (total : Nat)
    (wk wk' : Nat → Bool) :
    ∀ (raws : List RawPub) (i : Nat) (acc : List Doc),
      (extractLoop pd now wk total raws i acc).1 =
          (extractLoop pd now wk' total raws i acc).1 ∧
      (extractLoop pd now wk total raws i acc).2.1 =
          (extractLoop pd now wk' total raws i acc).2.1 := by
  intro raws
  induction raws with
  | nil => intro i acc; exact ⟨rfl, rfl⟩
  | cons p rest ih =>
    intro i acc
    simp only [extractLoop]
    split
    · exact ih _ _
    · split
      · refine ⟨(ih _ _).1, ?_⟩
        show _ :: _ = _ :: _
        rw [(ih _ _).2]
      · exact ih _ _

/-- Closed form of the checkpoint attempts over a run with no raising
entries: one checkpoint per index divisible by 10, carrying the entries
seen so far. -/
theorem extractLoop_snd_closed (pd : Doc) (now : DateTime) (wk : Nat → Bool)
    (total : Nat) (hpd : pd.isEmpty = false) :
    ∀ (raws : List RawPub) (i : Nat) (acc : List Doc),
      (∀ p ∈ raws, p.raises = false) →
      (extractLoop pd now wk total raws i acc).2.1 =
        ((List.range' i raws.length).filter (fun j => j % 10 == 0)).map
          (fun j => intermediateResult pd
            (acc ++ (raws.take (j - i + 1)).map normalizePub)
            (j + 1) total now) := by
  intro raws
  induction raws with
  | nil => intro i acc hr; simp [extractLoop]
  | cons p rest ih =>
    intro i acc hr
    have hp : p.raises = false := hr p (List.mem_cons_self p rest)
    have hrest : ∀ q ∈ rest, q.raises = false :=
      fun q hq => hr q (List.mem_cons_of_mem p hq)
    have hcongr : ∀ j, i + 1 ≤ j →
        intermediateResult pd
          ((acc ++ [normalizePub p]) ++
            (rest.take (j - (i + 1) + 1)).map normalizePub) (j + 1) total now =
        intermediateResult pd
          (acc ++ ((p :: rest).take (j - i + 1)).map normalizePub)
          (j + 1) total now := by
      intro j hj
      have htake : (p :: rest).take (j - i + 1) =
          p :: rest.take (j - (i + 1) + 1) := by
        rw [show j - i + 1 = (j - (i + 1) + 1) + 1 from by omega]
        rfl
      rw [htake]
      simp [List.append_assoc]
    rw [extractLoop, if_neg (by simp [hp]),
      show (p :: rest).length = rest.length + 1 from rfl, List.range'_succ]
    by_cases h10 : (i % 10 == 0) = true
    · rw [if_pos (by simp [h10, hpd])]
      show intermediateResult pd (acc ++ [normalizePub p]) (i + 1) total now ::
          (extractLoop pd now wk total rest (i + 1)
            (acc ++ [normalizePub p])).2.1 = _
      rw [List.filter_cons_of_pos (p := fun j => j % 10 == 0) h10,
        List.map_cons]
      congr 1
      · rw [Nat.sub_self]
        rfl
      · rw [ih (i + 1) (acc ++ [normalizePub p]) hrest]
        apply List.map_congr_left
        intro j hj
        have hj1 : i + 1 ≤ j := by
          have hm := (List.mem_filter.mp hj).1
          have := List.mem_range'_1.mp hm
          omega
        exact hcongr j hj1
    · rw [if_neg (by simp [h10, hpd]),
        List.filter_cons_of_neg (p := fun j => j % 10 == 0) (by simpa using h10)]
      rw [ih (i + 1) (acc ++ [normalizePub p]) hrest]
      apply List.map_congr_left
      intro j hj
      have hj1 : i + 1 ≤ j := by
        have hm := (List.mem_filter.mp hj).1
        have := List.mem_range'_1.mp hm
        omega
      exact hcongr j hj1

/-- C4 amended: checkpoints are attempted after the 1st publication and
every 10th iteration thereafter — the trigger is `i % 10 == 0` on the
0-based enumeration index, so with profile data available they land
after publications 1, 11, 21, ..., not 10, 20, 30 — each carrying the
profile fields, the publications so far re-sorted, and a
`scraping_progress` object with `current = i + 1`, the total, and the
percentage rounded to 2 decimal places; the publication results and the
sequence of attempted checkpoints are unaffected by which file writes
succeed (a write failure is swallowed inside
`_save_intermediate_result`). -/
theorem C4_checkpoint_schedule :
    (∀ (a : Author) (raws : List RawPub) (pd : Doc) (now : DateTime)
      (fo : Option Author) (wk : Nat → Bool),
      a.publications = some raws → pd.isEmpty = false →
      (∀ p ∈ raws, p.raises = false) →
      (extract_publications a pd now fo wk).2.1 =
        ((List.range raws.length).filter (fun i => i % 10 == 0)).map
          (fun i => intermediateResult pd
            ((raws.take (i + 1)).map normalizePub) (i + 1)
            raws.length now)) ∧
    (∀ (pd : Doc) (pubs : List Doc) (current total : Nat) (now : DateTime),
      dget (intermediateResult pd pubs current total now)
          "scraping_progress" =
        some (.obj [("current", .int current), ("total", .int total),
          ("percentage", .num (pctRound2 current total))]) ∧
      dget (intermediateResult pd pubs current total now) "publications" =
        some (.arr ((sortPubsDesc pubs).map JVal.obj)) ∧
      (∀ k, k ≠ "publications" → k ≠ "scraping_progress" →
        k ≠ "last_updated" → k ≠ "scraper_method" →
        dget (intermediateResult pd pubs current total now) k = dget pd k)) ∧
    (∀ (pd : Doc) (now : DateTime) (total : Nat) (wk wk' : Nat → Bool)
      (raws : List RawPub) (i : Nat) (acc : List Doc),
      (extractLoop pd now wk total raws i acc).1 =
          (extractLoop pd now wk' total raws i acc).1 ∧
      (extractLoop pd now wk total raws i acc).2.1 =
          (extractLoop pd now wk' total raws i acc).2.1) := by
  refine ⟨?_, ?_, ?_⟩
  · intro a raws pd now fo wk hpub hpd hnr
    have hsrc : getPubsSource a fo = some raws := by
      simp [getPubsSource, hpub]
    unfold extract_publications
    rw [hsrc]
    show (extractLoop pd now wk raws.length raws 0 []).2.1 = _
    rw [extractLoop_snd_closed pd now wk raws.length hpd raws 0 [] hnr,
      ← List.range_eq_range']
    apply List.map_congr_left
    intro j hj
    simp
  · intro pd pubs current total now
    refine ⟨?_, ?_, ?_⟩
    · simp only [intermediateResult]
      rw [dget_dmerge_cons]
      exact dget_dmerge_head _ _ _ _
        (forall_fst_ne_two (by decide) (by decide))
    · simp only [intermediateResult]
      exact dget_dmerge_head _ _ _ _
        (forall_fst_ne_three (by decide) (by decide) (by decide))
    · intro k h1 h2 h3 h4
      simp only [intermediateResult]
      rw [dget_dmerge_ne _ _ _ (forall_fst_ne_four (Ne.symm h1) (Ne.symm h2)
        (Ne.symm h3) (Ne.symm h4))]
  · intro pd now total wk wk' raws i acc
    exact extractLoop_wk_eq pd now total wk wk' raws i acc

theorem C4_witness :
    (extract_publications testAuthor10 testPd testNow none
        (fun _ => true)).2.1 =
      ((List.range 10).filter (fun i => i % 10 == 0)).map
        (fun i => intermediateResult testPd
          ((tenPubs.take (i + 1)).map normalizePub) (i + 1) 10 testNow) :=
  C4_checkpoint_schedule.1 testAuthor10 tenPubs testPd testNow none
    (fun _ => true) rfl rfl
    (fun p hp => by rw [List.eq_of_mem_replicate hp])

end ScrapeScholar
